import Mathlib

/-!
Verification of the saga-demo orchestration engine.

Shallow embedding of the repository's core modules:
- `src/src/models.py`     — Order / SagaStep / SagaTransaction records and status enums
- `src/src/database.py`   — seed-default resource maps
- `src/src/services.py`   — the four step services (action + compensation each)
- `src/src/orchestrator.py` — `execute_saga` / `_compensate_saga`
- `src/src/session_manager.py` — Redis-backed session store (get / setex / save)

Python dicts keyed by strings are modelled as association lists with
update-in-place-or-append write semantics (`setKey`).  Python `float` money
amounts are modelled as `ℚ` (all arithmetic performed on them is exact
addition/subtraction).  A raised exception is modelled as `Except.error` with
the exception message; in every service the in-place mutation happens only
after all checks pass, so an error leaves the session maps unchanged, which
the `Except`-based embedding reflects exactly.

The orchestrator mutates `saga` in place in Python and the session's
`saga_transactions` map holds an alias of the same object; the functional
embedding therefore re-registers the final saga value under its id at each
return point, which is what an aliasing reader observes.

The embedding additionally records instrumentation that Python exposes only
through its control flow: the index of the failing step (`failedIndex`) and
the ordered list of compensation invocations with their outcome
(`trace` / `compTrace`).
-/

namespace SagaDemo

/-! ### Data model (src/src/models.py) -/

inductive OrderStatus
  | pending
  | processing
  | completed
  | failed
  | compensating
deriving DecidableEq, Repr

inductive StepStatus
  | pending
  | completed
  | failed
  | compensated
deriving DecidableEq, Repr

structure Order where
  id : String
  user_id : String
  product_id : String
  quantity : Int
  amount : ℚ
  status : OrderStatus := OrderStatus.pending
deriving DecidableEq, Repr

structure SagaStep where
  name : String
  status : StepStatus := StepStatus.pending
  error_message : Option String := none
deriving DecidableEq, Repr

structure SagaTransaction where
  id : String
  order_id : String
  steps : List SagaStep
  status : OrderStatus := OrderStatus.pending
deriving DecidableEq, Repr

/-! ### Python dict operations

Association lists with string keys; `setKey` is `d[k] = v` (update the
existing entry in place, else append), `lookup` is `d.get(k)` /
`k in d` probing. -/

def lookup {α : Type} (k : String) : List (String × α) → Option α
  | [] => none
  | (k2, v) :: rest => if k = k2 then some v else lookup k rest

def setKey {α : Type} (k : String) (v : α) : List (String × α) → List (String × α)
  | [] => [(k, v)]
  | (k2, v2) :: rest => if k = k2 then (k, v) :: rest else (k2, v2) :: setKey k v rest

/-! ### Session resources (src/src/database.py, src/src/session_manager.py) -/

def create_default_inventory_db : List (String × Int) :=
  [("product_1", 100), ("product_2", 50), ("product_3", 25)]

def create_default_user_balances : List (String × ℚ) :=
  [("user_1", 1000), ("user_2", 500), ("user_3", 200)]

structure UserSession where
  session_id : String
  created_at : ℚ
  orders_db : List (String × Order) := []
  inventory_db : List (String × Int) := create_default_inventory_db
  user_balances : List (String × ℚ) := create_default_user_balances
  saga_transactions : List (String × SagaTransaction) := []
deriving DecidableEq, Repr

/-- A freshly created session: seed-default inventory and balances, empty
orders and saga-transactions maps (`UserSession` field defaults mirror the
`Field(default_factory=...)` declarations). -/
def seedSession (sid : String) : UserSession :=
  { session_id := sid, created_at := 0 }

/-! ### Step services (src/src/services.py)

Each service resolves the session's resource maps and then checks/mutates
them.  `Except.error msg` models `raise Exception(msg)`; a Python `KeyError`
raised by an unguarded dict subscript is modelled as the error string
"KeyError". -/

def validate_order (order : Order) (session : UserSession) : Except String UserSession :=
  if order.quantity ≤ 0 then Except.error "Invalid quantity"
  else if order.amount ≤ 0 then Except.error "Invalid amount"
  else if (lookup order.user_id session.user_balances).isNone then Except.error "User not found"
  else Except.ok session

def compensate_validation (_order : Order) (session : UserSession) :
    Except String UserSession :=
  Except.ok session

def reserve_inventory (order : Order) (session : UserSession) : Except String UserSession :=
  match lookup order.product_id session.inventory_db with
  | none => Except.error "Product not found"
  | some avail =>
    if avail < order.quantity then Except.error "Insufficient inventory"
    else Except.ok { session with
      inventory_db := setKey order.product_id (avail - order.quantity) session.inventory_db }

def release_inventory (order : Order) (session : UserSession) : Except String UserSession :=
  match lookup order.product_id session.inventory_db with
  | none => Except.ok session
  | some avail => Except.ok { session with
      inventory_db := setKey order.product_id (avail + order.quantity) session.inventory_db }

def process_payment (order : Order) (session : UserSession) : Except String UserSession :=
  match lookup order.user_id session.user_balances with
  | none => Except.error "KeyError"
  | some bal =>
    if bal < order.amount then Except.error "Insufficient funds"
    else Except.ok { session with
      user_balances := setKey order.user_id (bal - order.amount) session.user_balances }

def refund_payment (order : Order) (session : UserSession) : Except String UserSession :=
  match lookup order.user_id session.user_balances with
  | none => Except.error "KeyError"
  | some bal => Except.ok { session with
      user_balances := setKey order.user_id (bal + order.amount) session.user_balances }

def ship_order (order : Order) (_session : UserSession) : Except String UserSession :=
  if order.user_id = "user_3" then Except.error "Shipping address invalid"
  else Except.ok _session

def cancel_shipment (_order : Order) (session : UserSession) :
    Except String UserSession :=
  Except.ok session

/-! ### Orchestrator (src/src/orchestrator.py) -/

/-- One entry of `SagaOrchestrator.steps` (name / action / compensate). -/
structure StepConfig where
  name : String
  action : Order → UserSession → Except String UserSession
  compensate : Order → UserSession → Except String UserSession

/-- `SagaOrchestrator.__init__`: the fixed four-stage pipeline. -/
def sagaSteps : List StepConfig :=
  [ { name := "validate_order",
      action := validate_order, compensate := compensate_validation },
    { name := "reserve_inventory",
      action := reserve_inventory, compensate := release_inventory },
    { name := "process_payment",
      action := process_payment, compensate := refund_payment },
    { name := "ship_order",
      action := ship_order, compensate := cancel_shipment } ]

/-- `range(failed_step_index - 1, -1, -1)`: the indices `f-1, f-2, ..., 0`. -/
def downFrom (f : Nat) : List Nat :=
  (List.range f).reverse

/-- `steps[i].status = st` on a Python list of mutable step records. -/
def setStepStatus (steps : List SagaStep) (i : Nat) (st : StepStatus) : List SagaStep :=
  match steps[i]? with
  | some s => steps.set i { s with status := st }
  | none => steps

/-- `steps[i].status = FAILED; steps[i].error_message = str(e)`. -/
def markFailed (steps : List SagaStep) (i : Nat) (msg : String) : List SagaStep :=
  match steps[i]? with
  | some s => steps.set i { s with status := StepStatus.failed, error_message := some msg }
  | none => steps

/-- The status recorded at index `i` of a step list. -/
def statusAt (steps : List SagaStep) (i : Nat) : Option StepStatus :=
  (steps[i]?).map SagaStep.status

structure CompLoopResult where
  steps : List SagaStep
  session : UserSession
  trace : List (Nat × Bool)
deriving Repr

/-- The `for i in range(failed_step_index - 1, -1, -1)` loop body of
`_compensate_saga`, iterated over the index list `idxs`.  Only steps whose
status is COMPLETED have their compensation invoked; a successful
compensation marks the step COMPENSATED, a failing one is logged and leaves
the step untouched.  `trace` records, in invocation order, each index whose
compensation was invoked together with whether it succeeded. -/
def compensateLoop (cfg : List StepConfig) (order : Order) :
    List Nat → List SagaStep → UserSession → CompLoopResult
  | [], steps, session => ⟨steps, session, []⟩
  | i :: rest, steps, session =>
    match steps[i]?, cfg[i]? with
    | some st, some c =>
      if st.status = StepStatus.completed then
        match c.compensate order session with
        | Except.ok s2 =>
          let r := compensateLoop cfg order rest
            (steps.set i { st with status := StepStatus.compensated }) s2
          ⟨r.steps, r.session, (i, true) :: r.trace⟩
        | Except.error _ =>
          let r := compensateLoop cfg order rest steps session
          ⟨r.steps, r.session, (i, false) :: r.trace⟩
      else compensateLoop cfg order rest steps session
    | _, _ => compensateLoop cfg order rest steps session

structure CompResult where
  saga : SagaTransaction
  session : UserSession
  trace : List (Nat × Bool)
deriving Repr

/-- `_compensate_saga(saga, failed_step_index, order, session, ...)`:
sets the saga status to COMPENSATING, runs the reverse-order compensation
loop, and writes the updated saga back into the session's
`saga_transactions` map before saving the session. -/
def compensate_saga (cfg : List StepConfig) (saga : SagaTransaction)
    (failed_step_index : Nat) (order : Order) (session : UserSession) : CompResult :=
  let r := compensateLoop cfg order (downFrom failed_step_index) saga.steps session
  let saga2 : SagaTransaction :=
    { saga with status := OrderStatus.compensating, steps := r.steps }
  ⟨saga2,
   { r.session with saga_transactions := setKey saga2.id saga2 r.session.saga_transactions },
   r.trace⟩

structure LoopResult where
  saga : SagaTransaction
  session : UserSession
  failed : Option (Nat × List (Nat × Bool))

/-- The `for i, step_config in enumerate(self.steps)` loop of `execute_saga`,
started at index `i` with the remaining configs `rest`.  On action success
the step is marked COMPLETED and the loop continues; on action failure the
step is marked FAILED with the error message, `_compensate_saga` runs, and
the loop stops, reporting the failing index and the compensation trace. -/
def execLoop (cfg : List StepConfig) (order : Order) :
    List StepConfig → Nat → SagaTransaction → UserSession → LoopResult
  | [], _, saga, session => ⟨saga, session, none⟩
  | c :: rest, i, saga, session =>
    match c.action order session with
    | Except.ok s2 =>
      execLoop cfg order rest (i + 1)
        { saga with steps := setStepStatus saga.steps i StepStatus.completed } s2
    | Except.error e =>
      let saga1 : SagaTransaction := { saga with steps := markFailed saga.steps i e }
      let r := compensate_saga cfg saga1 i order session
      ⟨r.saga, r.session, some (i, r.trace)⟩

structure SagaResult where
  saga : SagaTransaction
  order : Order
  session : UserSession
  failedIndex : Option Nat
  compTrace : List (Nat × Bool)

/-- The fresh `SagaTransaction` built at the start of `execute_saga`: one
PENDING step per pipeline stage, saga status PENDING (the model default). -/
def initialSaga (cfg : List StepConfig) (saga_id : String) (order : Order) : SagaTransaction :=
  { id := saga_id, order_id := order.id,
    steps := cfg.map fun c => { name := c.name } }

/-- `session.saga_transactions[saga_id] = saga` (registration of the saga in
the session's map). -/
def registerSaga (saga_id : String) (saga : SagaTransaction) (session : UserSession) :
    UserSession :=
  { session with saga_transactions := setKey saga_id saga session.saga_transactions }

/-- `execute_saga` after session resolution (orchestrator.py lines 110-169):
builds the saga with one PENDING step per pipeline stage, registers it in the
session's `saga_transactions` map, runs the step loop, and on either outcome
sets the saga and order statuses, stores the order in `orders_db`, and saves
the session.  Because the registered saga is the same (aliased) object the
loop mutates, the final saga value is what the map holds at return. -/
def execute_saga (cfg : List StepConfig) (saga_id : String) (order : Order)
    (session : UserSession) : SagaResult :=
  match execLoop cfg order cfg 0 (initialSaga cfg saga_id order)
      (registerSaga saga_id (initialSaga cfg saga_id order) session) with
  | ⟨saga, s, none⟩ =>
    let saga2 : SagaTransaction := { saga with status := OrderStatus.completed }
    let order2 : Order := { order with status := OrderStatus.completed }
    ⟨saga2, order2,
     { s with orders_db := setKey order.id order2 s.orders_db,
              saga_transactions := setKey saga_id saga2 s.saga_transactions },
     none, []⟩
  | ⟨saga, s, some (i, tr)⟩ =>
    let saga2 : SagaTransaction := { saga with status := OrderStatus.failed }
    let order2 : Order := { order with status := OrderStatus.failed }
    ⟨saga2, order2,
     { s with orders_db := setKey order.id order2 s.orders_db,
              saga_transactions := setKey saga_id saga2 s.saga_transactions },
     some i, tr⟩

/-- The step statuses of a saga in pipeline order. -/
def stepStatuses (t : SagaTransaction) : List StepStatus :=
  t.steps.map SagaStep.status

/-! ### Session store (src/src/session_manager.py)

The Redis interaction is modelled through the three calls the session
manager makes: GET, SETEX and DELETE.  A stored record carries the value
together with its expiry deadline; only SETEX writes a deadline.
Serialization is modelled as the identity (a stored record deserializes to
itself), which is the behavior on every non-corrupted record. -/

structure RedisStore where
  entries : List (String × (UserSession × Nat))
deriving DecidableEq, Repr

/-- `redis_client.get(key)` at absolute time `now`: returns the stored value
if the key is present and unexpired.  A GET does not modify the store. -/
def redis_get (store : RedisStore) (now : Nat) (key : String) : Option UserSession :=
  match lookup key store.entries with
  | some (v, expiresAt) => if now < expiresAt then some v else none
  | none => none

/-- `redis_client.setex(key, timeout, value)` at absolute time `now`: stores
the value and (re)sets its expiry deadline to `now + timeout`. -/
def redis_setex (store : RedisStore) (now : Nat) (key : String) (timeout : Nat)
    (v : UserSession) : RedisStore :=
  ⟨setKey key (v, now + timeout) store.entries⟩

structure AsyncSessionManager where
  session_timeout : Nat := 3600

/-- `self._get_session_key(session_id)` (the `session:` prefix is the
`self.session_` `prefix` field, inlined). -/
def get_session_key (session_id : String) : String :=
  "session:" ++ session_id

/-- `AsyncSessionManager.get_session`: a single Redis GET; returns the
deserialized session or `none`, and the store as the call leaves it. -/
def get_session (m : AsyncSessionManager) (store : RedisStore) (now : Nat)
    (session_id : String) : Option UserSession × RedisStore :=
  match redis_get store now (get_session_key session_id) with
  | none => (none, store)
  | some v => (some v, store)

/-- `AsyncSessionManager.save_session`: a Redis SETEX under the session's
key, which resets the expiration. -/
def save_session (m : AsyncSessionManager) (store : RedisStore) (now : Nat)
    (session : UserSession) : RedisStore :=
  redis_setex store now (get_session_key session.session_id) m.session_timeout session

/-! ### Helper lemmas about the dict model -/

theorem lookup_setKey_self {α : Type} (k : String) (v : α) (l : List (String × α)) :
    lookup k (setKey k v l) = some v := by
  induction l with
  | nil => simp [setKey, lookup]
  | cons p rest ih =>
    obtain ⟨k2, v2⟩ := p
    by_cases h : k = k2
    · simp [setKey, lookup, h]
    · simp [setKey, lookup, h, ih]

/-! ### Helper lemmas about step lists -/

theorem set_self_of_getElem? {α : Type} :
    ∀ (l : List α) (i : Nat) (a : α), l[i]? = some a → l.set i a = l := by
  intro l
  induction l with
  | nil => intro i a h; simp at h
  | cons x xs ih =>
    intro i a h
    cases i with
    | zero => simp_all
    | succ n =>
      simp only [List.getElem?_cons_succ] at h
      simp [ih n a h]

theorem map_name_set (steps : List SagaStep) (i : Nat) (s s2 : SagaStep)
    (h : steps[i]? = some s) (hn : s2.name = s.name) :
    (steps.set i s2).map SagaStep.name = steps.map SagaStep.name := by
  rw [List.map_set]
  apply set_self_of_getElem?
  rw [List.getElem?_map, h]
  simp [hn]

theorem map_name_setStepStatus (steps : List SagaStep) (i : Nat) (st : StepStatus) :
    (setStepStatus steps i st).map SagaStep.name = steps.map SagaStep.name := by
  unfold setStepStatus
  cases h : steps[i]? with
  | none => rfl
  | some s => exact map_name_set steps i s _ h rfl

theorem map_name_markFailed (steps : List SagaStep) (i : Nat) (msg : String) :
    (markFailed steps i msg).map SagaStep.name = steps.map SagaStep.name := by
  unfold markFailed
  cases h : steps[i]? with
  | none => rfl
  | some s => exact map_name_set steps i s _ h rfl

theorem length_setStepStatus (steps : List SagaStep) (i : Nat) (st : StepStatus) :
    (setStepStatus steps i st).length = steps.length := by
  unfold setStepStatus
  cases steps[i]? <;> simp

theorem length_markFailed (steps : List SagaStep) (i : Nat) (msg : String) :
    (markFailed steps i msg).length = steps.length := by
  unfold markFailed
  cases steps[i]? <;> simp

/-! ### Lemmas about the compensation loop -/

theorem compensateLoop_getElem_outside (cfg : List StepConfig) (order : Order) :
    ∀ (idxs : List Nat) (steps : List SagaStep) (session : UserSession) (i : Nat),
      i ∉ idxs →
      (compensateLoop cfg order idxs steps session).steps[i]? = steps[i]? := by
  intro idxs
  induction idxs with
  | nil => intro steps session i _; simp [compensateLoop]
  | cons j rest ih =>
    intro steps session i hi
    have hij : i ≠ j := fun h => hi (h ▸ List.mem_cons_self j rest)
    have hir : i ∉ rest := fun h => hi (List.mem_cons_of_mem j h)
    simp only [compensateLoop]
    cases hst : steps[j]? with
    | none => simpa using ih steps session i hir
    | some st =>
      cases hc : cfg[j]? with
      | none => simpa using ih steps session i hir
      | some c =>
        simp only []
        by_cases hcomp : st.status = StepStatus.completed
        · rw [if_pos hcomp]
          cases hres : c.compensate order session with
          | ok s2 =>
            simp only []
            rw [ih _ s2 i hir, List.getElem?_set_ne (Ne.symm hij)]
          | error e =>
            simpa using ih steps session i hir
        · rw [if_neg hcomp]
          exact ih steps session i hir

theorem compensateLoop_trace_sub (cfg : List StepConfig) (order : Order) :
    ∀ (idxs : List Nat) (steps : List SagaStep) (session : UserSession)
      (p : Nat × Bool),
      p ∈ (compensateLoop cfg order idxs steps session).trace → p.1 ∈ idxs := by
  intro idxs
  induction idxs with
  | nil => intro steps session p hp; simp [compensateLoop] at hp
  | cons j rest ih =>
    intro steps session
    simp only [compensateLoop]
    cases hst : steps[j]? with
    | none =>
      intro p hp
      exact List.mem_cons_of_mem j (ih steps session p (by simpa using hp))
    | some st =>
      cases hc : cfg[j]? with
      | none =>
        intro p hp
        exact List.mem_cons_of_mem j (ih steps session p (by simpa using hp))
      | some c =>
        simp only []
        by_cases hcomp : st.status = StepStatus.completed
        · rw [if_pos hcomp]
          cases hres : c.compensate order session with
          | ok s2 =>
            intro p hp
            simp only [List.mem_cons] at hp
            rcases hp with hp | hp
            · simp [hp]
            · exact List.mem_cons_of_mem j (ih _ s2 p hp)
          | error e =>
            intro p hp
            simp only [List.mem_cons] at hp
            rcases hp with hp | hp
            · simp [hp]
            · exact List.mem_cons_of_mem j (ih steps session p hp)
        · rw [if_neg hcomp]
          intro p hp
          exact List.mem_cons_of_mem j (ih steps session p hp)

theorem compensateLoop_map_name (cfg : List StepConfig) (order : Order) :
    ∀ (idxs : List Nat) (steps : List SagaStep) (session : UserSession),
      (compensateLoop cfg order idxs steps session).steps.map SagaStep.name =
        steps.map SagaStep.name := by
  intro idxs
  induction idxs with
  | nil => intro steps session; simp [compensateLoop]
  | cons j rest ih =>
    intro steps session
    simp only [compensateLoop]
    cases hst : steps[j]? with
    | none => simpa using ih steps session
    | some st =>
      cases hc : cfg[j]? with
      | none => simpa using ih steps session
      | some c =>
        simp only []
        by_cases hcomp : st.status = StepStatus.completed
        · rw [if_pos hcomp]
          cases hres : c.compensate order session with
          | ok s2 =>
            simp only []
            rw [ih _ s2,
              map_name_set steps j st { st with status := StepStatus.compensated } hst rfl]
          | error e => simpa using ih steps session
        · rw [if_neg hcomp]
          exact ih steps session

/-- Full characterization of the compensation loop on a list of distinct,
in-range indices: the trace lists exactly the visited indices whose step was
COMPLETED, in iteration order; a successfully compensated step is re-marked
COMPENSATED; a failed compensation leaves the step untouched, as does
skipping a step that is not COMPLETED. -/
theorem compensateLoop_spec (cfg : List StepConfig) (order : Order) :
    ∀ (idxs : List Nat) (steps : List SagaStep) (session : UserSession),
      idxs.Nodup →
      (∀ i ∈ idxs, i < steps.length ∧ i < cfg.length) →
      (compensateLoop cfg order idxs steps session).trace.map Prod.fst =
        idxs.filter (fun i => decide (statusAt steps i = some StepStatus.completed)) ∧
      (∀ i b, (i, b) ∈ (compensateLoop cfg order idxs steps session).trace →
        ∃ s, steps[i]? = some s ∧ s.status = StepStatus.completed ∧
          (b = true → (compensateLoop cfg order idxs steps session).steps[i]? =
            some { s with status := StepStatus.compensated }) ∧
          (b = false → (compensateLoop cfg order idxs steps session).steps[i]? =
            steps[i]?)) ∧
      (∀ i, i ∈ idxs → statusAt steps i ≠ some StepStatus.completed →
        (compensateLoop cfg order idxs steps session).steps[i]? = steps[i]?) := by
  intro idxs
  induction idxs with
  | nil =>
    intro steps session _ _
    refine ⟨by simp [compensateLoop], ?_, ?_⟩
    · intro i b hib
      simp [compensateLoop] at hib
    · intro i hi _
      simp at hi
  | cons j rest ih =>
    intro steps session hnd hbnd
    obtain ⟨hjmem, hndr⟩ := List.nodup_cons.mp hnd
    obtain ⟨hjs, hjc⟩ := hbnd j (List.mem_cons_self j rest)
    obtain ⟨st, hst⟩ : ∃ s, steps[j]? = some s := by
      rw [List.getElem?_eq_getElem hjs]
      exact ⟨_, rfl⟩
    obtain ⟨c, hc⟩ : ∃ c2, cfg[j]? = some c2 := by
      rw [List.getElem?_eq_getElem hjc]
      exact ⟨_, rfl⟩
    have hpj : statusAt steps j = some st.status := by simp [statusAt, hst]
    simp only [compensateLoop, hst, hc]
    by_cases hcomp : st.status = StepStatus.completed
    · rw [if_pos hcomp]
      cases hres : c.compensate order session with
      | ok s2 =>
        have hbnd2 : ∀ i ∈ rest,
            i < (steps.set j { st with status := StepStatus.compensated }).length ∧
            i < cfg.length := by
          intro i hi
          have := hbnd i (List.mem_cons_of_mem j hi)
          simpa [List.length_set] using this
        obtain ⟨ih1, ih2, ih3⟩ :=
          ih (steps.set j { st with status := StepStatus.compensated }) s2 hndr hbnd2
        have hstatus_eq : ∀ i ∈ rest,
            statusAt (steps.set j { st with status := StepStatus.compensated }) i =
            statusAt steps i := by
          intro i hi
          have hij : j ≠ i := fun h => hjmem (h ▸ hi)
          simp [statusAt, List.getElem?_set_ne hij]
        refine ⟨?_, ?_, ?_⟩
        · simp only [List.map_cons, List.filter_cons, hpj, hcomp]
          rw [ih1, List.filter_congr (fun i hi => by rw [hstatus_eq i hi])]
          simp
        · intro i b hib
          simp only [List.mem_cons] at hib
          rcases hib with hib | hib
          · obtain ⟨rfl, rfl⟩ := Prod.mk.injEq .. ▸ hib
            refine ⟨st, hst, hcomp, ?_, ?_⟩
            · intro _
              rw [compensateLoop_getElem_outside cfg order rest _ s2 i hjmem]
              exact List.getElem?_set_self hjs
            · intro h
              cases h
          · have hirest : i ∈ rest :=
              compensateLoop_trace_sub cfg order rest _ s2 (i, b) hib
            have hij : j ≠ i := fun h => hjmem (h ▸ hirest)
            obtain ⟨s, hs, hcs, h1, h0⟩ := ih2 i b hib
            rw [List.getElem?_set_ne hij] at hs
            refine ⟨s, hs, hcs, h1, ?_⟩
            intro hb
            rw [h0 hb, List.getElem?_set_ne hij]
        · intro i hi hnc
          simp only [List.mem_cons] at hi
          rcases hi with rfl | hi
          · rw [hpj, hcomp] at hnc
            exact absurd rfl hnc
          · have hij : j ≠ i := fun h => hjmem (h ▸ hi)
            rw [ih3 i hi (by rw [hstatus_eq i hi]; exact hnc), List.getElem?_set_ne hij]
      | error e =>
        have hbnd2 : ∀ i ∈ rest, i < steps.length ∧ i < cfg.length := fun i hi =>
          hbnd i (List.mem_cons_of_mem j hi)
        obtain ⟨ih1, ih2, ih3⟩ := ih steps session hndr hbnd2
        refine ⟨?_, ?_, ?_⟩
        · simp only [List.map_cons, List.filter_cons, hpj, hcomp]
          rw [ih1]
          simp
        · intro i b hib
          simp only [List.mem_cons] at hib
          rcases hib with hib | hib
          · obtain ⟨rfl, rfl⟩ := Prod.mk.injEq .. ▸ hib
            refine ⟨st, hst, hcomp, ?_, ?_⟩
            · intro h
              cases h
            · intro _
              rw [compensateLoop_getElem_outside cfg order rest steps session i hjmem]
          · exact ih2 i b hib
        · intro i hi hnc
          simp only [List.mem_cons] at hi
          rcases hi with rfl | hi
          · rw [hpj, hcomp] at hnc
            exact absurd rfl hnc
          · exact ih3 i hi hnc
    · rw [if_neg hcomp]
      have hbnd2 : ∀ i ∈ rest, i < steps.length ∧ i < cfg.length := fun i hi =>
        hbnd i (List.mem_cons_of_mem j hi)
      obtain ⟨ih1, ih2, ih3⟩ := ih steps session hndr hbnd2
      refine ⟨?_, ?_, ?_⟩
      · simp only [List.filter_cons, hpj]
        have : ¬(decide (some st.status = some StepStatus.completed) = true) := by
          simpa using hcomp
        rw [ih1]
        simp [hcomp]
      · exact ih2
      · intro i hi hnc
        simp only [List.mem_cons] at hi
        rcases hi with rfl | hi
        · exact compensateLoop_getElem_outside cfg order rest steps session i hjmem
        · exact ih3 i hi hnc

theorem mem_downFrom {i f : Nat} : i ∈ downFrom f ↔ i < f := by
  simp [downFrom, List.mem_reverse, List.mem_range]

theorem downFrom_nodup (f : Nat) : (downFrom f).Nodup := by
  simp [downFrom, List.nodup_reverse, List.nodup_range]

/-! ### Lemmas about the execution loop -/

theorem execLoop_preserved (cfg : List StepConfig) (order : Order) :
    ∀ (rest : List StepConfig) (i : Nat) (saga : SagaTransaction) (session : UserSession),
      (execLoop cfg order rest i saga session).saga.id = saga.id ∧
      (execLoop cfg order rest i saga session).saga.order_id = saga.order_id ∧
      (execLoop cfg order rest i saga session).saga.steps.map SagaStep.name =
        saga.steps.map SagaStep.name := by
  intro rest
  induction rest with
  | nil => intro i saga session; simp [execLoop]
  | cons c rest2 ih =>
    intro i saga session
    simp only [execLoop]
    cases hres : c.action order session with
    | ok s2 =>
      obtain ⟨h1, h2, h3⟩ :=
        ih (i + 1) { saga with steps := setStepStatus saga.steps i StepStatus.completed } s2
      refine ⟨h1, h2, ?_⟩
      rw [h3]
      exact map_name_setStepStatus saga.steps i StepStatus.completed
    | error e =>
      refine ⟨rfl, rfl, ?_⟩
      simp only [compensate_saga]
      rw [compensateLoop_map_name]
      exact map_name_markFailed saga.steps i e

theorem execLoop_fail_spec (cfg : List StepConfig) (order : Order) :
    ∀ (rest : List StepConfig) (i0 : Nat) (saga : SagaTransaction) (session : UserSession),
      (∀ k s, i0 ≤ k → saga.steps[k]? = some s → s.status = StepStatus.pending) →
      i0 + rest.length = saga.steps.length →
      ∀ i tr, (execLoop cfg order rest i0 saga session).failed = some (i, tr) →
        i0 ≤ i ∧
        statusAt (execLoop cfg order rest i0 saga session).saga.steps i =
          some StepStatus.failed ∧
        (∀ j s, i < j →
          (execLoop cfg order rest i0 saga session).saga.steps[j]? = some s →
          s.status = StepStatus.pending) ∧
        (∀ p ∈ tr, p.1 < i) := by
  intro rest
  induction rest with
  | nil =>
    intro i0 saga session _ _ i tr hfail
    simp [execLoop] at hfail
  | cons c rest2 ih =>
    intro i0 saga session hpend hlen
    have hi0len : i0 < saga.steps.length := by
      simp only [List.length_cons] at hlen
      omega
    simp only [execLoop]
    cases hres : c.action order session with
    | ok s2 =>
      intro i tr hfail
      have hpend2 : ∀ k s, i0 + 1 ≤ k →
          (setStepStatus saga.steps i0 StepStatus.completed)[k]? = some s →
          s.status = StepStatus.pending := by
        intro k s hk hs
        unfold setStepStatus at hs
        cases hsk : saga.steps[i0]? with
        | none => rw [hsk] at hs; exact hpend k s (by omega) hs
        | some s0 =>
          rw [hsk] at hs
          rw [List.getElem?_set_ne (by omega : i0 ≠ k)] at hs
          exact hpend k s (by omega) hs
      have hlen2 : i0 + 1 + rest2.length =
          (setStepStatus saga.steps i0 StepStatus.completed).length := by
        rw [length_setStepStatus]
        simp only [List.length_cons] at hlen
        omega
      obtain ⟨g1, g2, g3, g4⟩ :=
        ih (i0 + 1) { saga with steps := setStepStatus saga.steps i0 StepStatus.completed }
          s2 hpend2 hlen2 i tr hfail
      exact ⟨by omega, g2, g3, g4⟩
    | error e =>
      intro i tr hfail
      simp only [Option.some.injEq, Prod.mk.injEq] at hfail
      obtain ⟨rfl, rfl⟩ := hfail
      obtain ⟨s0, hs0⟩ : ∃ s, saga.steps[i0]? = some s := by
        rw [List.getElem?_eq_getElem hi0len]
        exact ⟨_, rfl⟩
      have hmark : (markFailed saga.steps i0 e)[i0]? =
          some { s0 with status := StepStatus.failed, error_message := some e } := by
        unfold markFailed
        rw [hs0]
        exact List.getElem?_set_self (by simpa using hi0len)
      refine ⟨Nat.le_refl i0, ?_, ?_, ?_⟩
      · simp only [compensate_saga, statusAt]
        rw [compensateLoop_getElem_outside cfg order _ _ session i0
          (by rw [mem_downFrom]; omega)]
        simp only [markFailed, hs0]
        rw [List.getElem?_set_self (by simpa using hi0len)]
        rfl
      · intro j s hij hjs
        simp only [compensate_saga] at hjs
        rw [compensateLoop_getElem_outside cfg order _ _ session j
          (by rw [mem_downFrom]; omega)] at hjs
        simp only [markFailed, hs0] at hjs
        rw [List.getElem?_set_ne (by omega : i0 ≠ j)] at hjs
        exact hpend j s (by omega) hjs
      · intro p hp
        have := compensateLoop_trace_sub cfg order (downFrom i0) _ session p hp
        rw [mem_downFrom] at this
        exact this

theorem initialSaga_pending (cfg : List StepConfig) (saga_id : String) (order : Order) :
    ∀ (k : Nat) (s : SagaStep), (initialSaga cfg saga_id order).steps[k]? = some s →
      s.status = StepStatus.pending := by
  intro k s hs
  simp only [initialSaga, List.getElem?_map] at hs
  cases h : cfg[k]? with
  | none => rw [h] at hs; cases hs
  | some c =>
    rw [h] at hs
    simp at hs
    simp [← hs]

/-- Case decomposition of `execute_saga`: facts holding on both the
all-steps-completed branch and the failure branch. -/
theorem execute_saga_spec (cfg : List StepConfig) (saga_id : String) (order : Order)
    (session : UserSession) :
    (execute_saga cfg saga_id order session).saga.id = saga_id ∧
    (execute_saga cfg saga_id order session).saga.order_id = order.id ∧
    (execute_saga cfg saga_id order session).saga.steps.map SagaStep.name =
      cfg.map StepConfig.name ∧
    lookup saga_id (execute_saga cfg saga_id order session).session.saga_transactions =
      some (execute_saga cfg saga_id order session).saga ∧
    lookup order.id (execute_saga cfg saga_id order session).session.orders_db =
      some (execute_saga cfg saga_id order session).order ∧
    (((execute_saga cfg saga_id order session).failedIndex = none ∧
        (execute_saga cfg saga_id order session).saga.status = OrderStatus.completed ∧
        (execute_saga cfg saga_id order session).order.status = OrderStatus.completed) ∨
      ((∃ i, (execute_saga cfg saga_id order session).failedIndex = some i) ∧
        (execute_saga cfg saga_id order session).saga.status = OrderStatus.failed ∧
        (execute_saga cfg saga_id order session).order.status = OrderStatus.failed)) := by
  obtain ⟨g1, g2, g3⟩ := execLoop_preserved cfg order cfg 0 (initialSaga cfg saga_id order)
    (registerSaga saga_id (initialSaga cfg saga_id order) session)
  have hnames : (initialSaga cfg saga_id order).steps.map SagaStep.name =
      cfg.map StepConfig.name := by
    simp [initialSaga, List.map_map]
  cases hE : execLoop cfg order cfg 0 (initialSaga cfg saga_id order)
      (registerSaga saga_id (initialSaga cfg saga_id order) session) with
  | mk sg ss fl =>
    rw [hE] at g1 g2 g3
    simp only [] at g1 g2 g3
    cases fl with
    | none =>
      simp only [execute_saga, hE]
      simp [g1, g2, g3, hnames, initialSaga, lookup_setKey_self]
    | some p =>
      obtain ⟨i, tr⟩ := p
      simp only [execute_saga, hE]
      simp [g1, g2, g3, hnames, initialSaga, lookup_setKey_self]

/-! ### Claim theorems -/

/-- C1: when the step at index `f` fails, the rollback visits indices
`f-1, ..., 0` in strict reverse (LIFO) order and invokes the compensation
exactly for the steps whose status is COMPLETED: the invocation trace equals
`downFrom f` filtered to the COMPLETED steps, in that order.  Each step whose
compensation succeeds is marked COMPENSATED, and every visited step that is
not COMPLETED is skipped (left untouched). -/
theorem c1_rollback_lifo_completed_only (saga : SagaTransaction) (f : Nat)
    (order : Order) (session : UserSession)
    (h1 : f ≤ saga.steps.length) (h2 : f ≤ sagaSteps.length) :
    (compensate_saga sagaSteps saga f order session).trace.map Prod.fst =
      (downFrom f).filter
        (fun i => decide (statusAt saga.steps i = some StepStatus.completed)) ∧
    (∀ i b, (i, b) ∈ (compensate_saga sagaSteps saga f order session).trace →
      statusAt saga.steps i = some StepStatus.completed) ∧
    (∀ i, (i, true) ∈ (compensate_saga sagaSteps saga f order session).trace →
      statusAt (compensate_saga sagaSteps saga f order session).saga.steps i =
        some StepStatus.compensated) ∧
    (∀ i, i < f → statusAt saga.steps i ≠ some StepStatus.completed →
      (compensate_saga sagaSteps saga f order session).saga.steps[i]? =
        saga.steps[i]?) := by
  have hbnd : ∀ i ∈ downFrom f, i < saga.steps.length ∧ i < sagaSteps.length := by
    intro i hi
    rw [mem_downFrom] at hi
    constructor <;> omega
  obtain ⟨s1, s2, s3⟩ := compensateLoop_spec sagaSteps order (downFrom f) saga.steps
    session (downFrom_nodup f) hbnd
  refine ⟨by simpa [compensate_saga] using s1, ?_, ?_, ?_⟩
  · intro i b hib
    obtain ⟨s, hs, hcs, _, _⟩ := s2 i b (by simpa [compensate_saga] using hib)
    simp [statusAt, hs, hcs]
  · intro i hib
    obtain ⟨s, hs, hcs, hmark, _⟩ := s2 i true (by simpa [compensate_saga] using hib)
    have hm := hmark rfl
    simp [compensate_saga, statusAt, hm]
  · intro i hif hnc
    have := s3 i (mem_downFrom.mpr hif) hnc
    simpa [compensate_saga] using this

/-- C3: for every order and session, the returned saga's steps carry exactly
the names [validate_order, reserve_inventory, process_payment, ship_order]
in pipeline order (hence length 4), regardless of where or whether a failure
occurs; the saga registered in the session's map is the same transaction. -/
theorem c3_pipeline_names (saga_id : String) (order : Order) (session : UserSession) :
    (execute_saga sagaSteps saga_id order session).saga.steps.map SagaStep.name =
      ["validate_order", "reserve_inventory", "process_payment", "ship_order"] ∧
    (execute_saga sagaSteps saga_id order session).saga.steps.length = 4 ∧
    lookup saga_id (execute_saga sagaSteps saga_id order session).session.saga_transactions =
      some (execute_saga sagaSteps saga_id order session).saga := by
  obtain ⟨_, _, h3, h4, _, _⟩ := execute_saga_spec sagaSteps saga_id order session
  have hnames : (execute_saga sagaSteps saga_id order session).saga.steps.map
      SagaStep.name = ["validate_order", "reserve_inventory", "process_payment",
        "ship_order"] := by
    rw [h3]
    simp [sagaSteps]
  refine ⟨hnames, ?_, h4⟩
  have := congrArg List.length hnames
  simpa using this

/-- C4: once the step at index `i` fails, no later stage is executed or
compensated: the failed step carries status FAILED, every step at an index
greater than `i` still has status PENDING in the returned saga, and every
compensation invocation touched only indices below `i`. -/
theorem c4_no_stage_after_failure (saga_id : String) (order : Order)
    (session : UserSession) (i : Nat)
    (h : (execute_saga sagaSteps saga_id order session).failedIndex = some i) :
    statusAt (execute_saga sagaSteps saga_id order session).saga.steps i =
      some StepStatus.failed ∧
    (∀ j s, i < j →
      (execute_saga sagaSteps saga_id order session).saga.steps[j]? = some s →
      s.status = StepStatus.pending) ∧
    (∀ p ∈ (execute_saga sagaSteps saga_id order session).compTrace, p.1 < i) := by
  have hpend : ∀ (k : Nat) (s : SagaStep), 0 ≤ k →
      (initialSaga sagaSteps saga_id order).steps[k]? = some s →
      s.status = StepStatus.pending := fun k s _ hs =>
    initialSaga_pending sagaSteps saga_id order k s hs
  have hlen : 0 + sagaSteps.length = (initialSaga sagaSteps saga_id order).steps.length := by
    simp [initialSaga]
  cases hE : execLoop sagaSteps order sagaSteps 0 (initialSaga sagaSteps saga_id order)
      (registerSaga saga_id (initialSaga sagaSteps saga_id order) session) with
  | mk sg ss fl =>
    cases fl with
    | none =>
      rw [show (execute_saga sagaSteps saga_id order session).failedIndex = none by
        simp only [execute_saga, hE]] at h
      cases h
    | some p =>
      obtain ⟨i0, tr⟩ := p
      have hi0 : i0 = i := by
        rw [show (execute_saga sagaSteps saga_id order session).failedIndex = some i0 by
          simp only [execute_saga, hE]] at h
        exact (Option.some.injEq .. ▸ h)
      subst hi0
      obtain ⟨_, g2, g3, g4⟩ := execLoop_fail_spec sagaSteps order sagaSteps 0
        (initialSaga sagaSteps saga_id order)
        (registerSaga saga_id (initialSaga sagaSteps saga_id order) session)
        hpend hlen i0 tr (by rw [hE])
      rw [hE] at g2 g3
      simp only [] at g2 g3
      refine ⟨?_, ?_, ?_⟩
      · simpa only [execute_saga, hE] using g2
      · intro j s hij hjs
        exact g3 j s hij (by simpa only [execute_saga, hE] using hjs)
      · intro p hp
        exact g4 p (by simpa only [execute_saga, hE] using hp)

/-- C5: a failing compensation is logged but not propagated: the step keeps
status COMPLETED (it is not re-marked), every remaining completed step at a
lower index is still attempted (it appears in the invocation trace), and
whenever any step of `execute_saga` fails the returned saga and order still
end with status FAILED. -/
theorem c5_compensation_failure_tolerated :
    (∀ (saga : SagaTransaction) (f : Nat) (order : Order) (session : UserSession),
      f ≤ saga.steps.length → f ≤ sagaSteps.length →
      ∀ i, (i, false) ∈ (compensate_saga sagaSteps saga f order session).trace →
        statusAt saga.steps i = some StepStatus.completed ∧
        statusAt (compensate_saga sagaSteps saga f order session).saga.steps i =
          some StepStatus.completed ∧
        (∀ j, j < i → statusAt saga.steps j = some StepStatus.completed →
          ∃ b, (j, b) ∈ (compensate_saga sagaSteps saga f order session).trace)) ∧
    (∀ (saga_id : String) (order : Order) (session : UserSession) (i : Nat),
      (execute_saga sagaSteps saga_id order session).failedIndex = some i →
      (execute_saga sagaSteps saga_id order session).saga.status = OrderStatus.failed ∧
      (execute_saga sagaSteps saga_id order session).order.status = OrderStatus.failed) := by
  constructor
  · intro saga f order session h1 h2 i hib
    have hbnd : ∀ j ∈ downFrom f, j < saga.steps.length ∧ j < sagaSteps.length := by
      intro j hj
      rw [mem_downFrom] at hj
      constructor <;> omega
    obtain ⟨s1, s2, s3⟩ := compensateLoop_spec sagaSteps order (downFrom f) saga.steps
      session (downFrom_nodup f) hbnd
    have hib2 : (i, false) ∈
        (compensateLoop sagaSteps order (downFrom f) saga.steps session).trace := by
      simpa [compensate_saga] using hib
    obtain ⟨s, hs, hcs, _, h0⟩ := s2 i false hib2
    have hunchanged := h0 rfl
    have hif : i < f := by
      have := compensateLoop_trace_sub sagaSteps order (downFrom f) saga.steps session
        (i, false) hib2
      exact mem_downFrom.mp this
    refine ⟨by simp [statusAt, hs, hcs], ?_, ?_⟩
    · simp [compensate_saga, statusAt, hunchanged, hs, hcs]
    · intro j hji hjc
      have hjmem : j ∈ (downFrom f).filter
          (fun k => decide (statusAt saga.steps k = some StepStatus.completed)) := by
        rw [List.mem_filter]
        exact ⟨mem_downFrom.mpr (by omega), by simp [hjc]⟩
      rw [← s1] at hjmem
      obtain ⟨p, hp, hpj⟩ := List.mem_map.mp hjmem
      refine ⟨p.2, ?_⟩
      have : p = (j, p.2) := by
        rw [← hpj]
      rw [← this]
      simpa [compensate_saga] using hp
  · intro saga_id order session i h
    obtain ⟨_, _, _, _, _, hcases⟩ := execute_saga_spec sagaSteps saga_id order session
    rcases hcases with ⟨hnone, _, _⟩ | ⟨_, hsaga, horder⟩
    · rw [hnone] at h
      cases h
    · exact ⟨hsaga, horder⟩

/-- All inventory quantities and all user balances of a session are
non-negative. -/
def NonNegSession (s : UserSession) : Prop :=
  (∀ p ∈ s.inventory_db, 0 ≤ p.2) ∧ (∀ p ∈ s.user_balances, 0 ≤ p.2)

theorem lookup_mem {α : Type} (k : String) (v : α) :
    ∀ (l : List (String × α)), lookup k l = some v → (k, v) ∈ l := by
  intro l
  induction l with
  | nil => intro h; cases h
  | cons p rest ih =>
    obtain ⟨k2, v2⟩ := p
    intro h
    by_cases hk : k = k2
    · simp only [lookup, if_pos hk] at h
      obtain rfl : v2 = v := by simpa using h
      simp [hk]
    · simp only [lookup, if_neg hk] at h
      exact List.mem_cons_of_mem _ (ih h)

theorem setKey_mem {α : Type} (k : String) (v : α) :
    ∀ (l : List (String × α)) (p : String × α), p ∈ setKey k v l →
      p = (k, v) ∨ p ∈ l := by
  intro l
  induction l with
  | nil => intro p hp; simp [setKey] at hp; simp [hp]
  | cons q rest ih =>
    obtain ⟨k2, v2⟩ := q
    intro p hp
    by_cases hk : k = k2
    · simp only [setKey, if_pos hk, List.mem_cons] at hp
      rcases hp with rfl | hp
      · simp
      · exact Or.inr (List.mem_cons_of_mem _ hp)
    · simp only [setKey, if_neg hk, List.mem_cons] at hp
      rcases hp with rfl | hp
      · simp
      · rcases ih p hp with h | h
        · exact Or.inl h
        · exact Or.inr (List.mem_cons_of_mem _ h)

theorem setKey_nonneg {α : Type} [Zero α] [Preorder α] (k : String) (v : α)
    (l : List (String × α)) (hl : ∀ p ∈ l, 0 ≤ p.2) (hv : 0 ≤ v) :
    ∀ p ∈ setKey k v l, 0 ≤ p.2 := by
  intro p hp
  rcases setKey_mem k v l p hp with rfl | h
  · exact hv
  · exact hl p h

/-! Ok-case lemmas about the individual services, used for the
non-negativity invariant. -/

theorem validate_order_ok (order : Order) (s s2 : UserSession)
    (h : validate_order order s = Except.ok s2) :
    s2 = s ∧ 0 < order.quantity ∧ 0 < order.amount := by
  by_cases h1 : order.quantity ≤ 0
  · simp [validate_order, h1] at h
  · by_cases h2 : order.amount ≤ 0
    · simp [validate_order, h1, h2] at h
    · by_cases h3 : (lookup order.user_id s.user_balances).isNone
      · simp [validate_order, h1, h2, h3] at h
      · simp [validate_order, h1, h2, h3] at h
        exact ⟨h.symm, by omega, by linarith⟩

theorem reserve_inventory_ok_nonneg (order : Order) (s s2 : UserSession)
    (hnn : NonNegSession s) (h : reserve_inventory order s = Except.ok s2) :
    NonNegSession s2 := by
  obtain ⟨hinv, hbal⟩ := hnn
  cases hl : lookup order.product_id s.inventory_db with
  | none => simp [reserve_inventory, hl] at h
  | some avail =>
    by_cases hq : avail < order.quantity
    · simp [reserve_inventory, hl, hq] at h
    · simp only [reserve_inventory, hl, if_neg hq] at h
      obtain rfl : _ = s2 := by simpa using h
      refine ⟨?_, hbal⟩
      exact setKey_nonneg _ _ _ hinv (by omega)

theorem process_payment_ok_nonneg (order : Order) (s s2 : UserSession)
    (hnn : NonNegSession s) (h : process_payment order s = Except.ok s2) :
    NonNegSession s2 := by
  obtain ⟨hinv, hbal⟩ := hnn
  cases hl : lookup order.user_id s.user_balances with
  | none => simp [process_payment, hl] at h
  | some bal =>
    by_cases hb : bal < order.amount
    · simp [process_payment, hl, hb] at h
    · simp only [process_payment, hl, if_neg hb] at h
      obtain rfl : _ = s2 := by simpa using h
      refine ⟨hinv, ?_⟩
      exact setKey_nonneg _ _ _ hbal (by linarith)

theorem ship_order_ok (order : Order) (s s2 : UserSession)
    (h : ship_order order s = Except.ok s2) : s2 = s := by
  by_cases hu : order.user_id = "user_3"
  · simp [ship_order, hu] at h
  · simp [ship_order, hu] at h
    exact h.symm

theorem release_inventory_nonneg (order : Order) (s s2 : UserSession)
    (hnn : NonNegSession s) (hq : 0 ≤ order.quantity)
    (h : release_inventory order s = Except.ok s2) : NonNegSession s2 := by
  obtain ⟨hinv, hbal⟩ := hnn
  cases hl : lookup order.product_id s.inventory_db with
  | none =>
    simp only [release_inventory, hl] at h
    obtain rfl : s = s2 := by simpa using h
    exact ⟨hinv, hbal⟩
  | some avail =>
    simp only [release_inventory, hl] at h
    obtain rfl : _ = s2 := by simpa using h
    refine ⟨?_, hbal⟩
    have havail : 0 ≤ avail := hinv (order.product_id, avail) (lookup_mem _ _ _ hl)
    exact setKey_nonneg _ _ _ hinv (by omega)

theorem refund_payment_nonneg (order : Order) (s s2 : UserSession)
    (hnn : NonNegSession s) (ha : 0 ≤ order.amount)
    (h : refund_payment order s = Except.ok s2) : NonNegSession s2 := by
  obtain ⟨hinv, hbal⟩ := hnn
  cases hl : lookup order.user_id s.user_balances with
  | none => simp [refund_payment, hl] at h
  | some bal =>
    simp only [refund_payment, hl] at h
    obtain rfl : _ = s2 := by simpa using h
    refine ⟨hinv, ?_⟩
    have hb : 0 ≤ bal := hbal (order.user_id, bal) (lookup_mem _ _ _ hl)
    exact setKey_nonneg _ _ _ hbal (by linarith)

/-- The compensation loop preserves session non-negativity whenever every
compensation of the pipeline does. -/
theorem compensateLoop_nonneg (cfg : List StepConfig) (order : Order)
    (hcomp : ∀ (j : Nat) (c : StepConfig), cfg[j]? = some c →
      ∀ s s2, c.compensate order s = Except.ok s2 →
        NonNegSession s → NonNegSession s2) :
    ∀ (idxs : List Nat) (steps : List SagaStep) (session : UserSession),
      NonNegSession session →
      NonNegSession (compensateLoop cfg order idxs steps session).session := by
  intro idxs
  induction idxs with
  | nil => intro steps session h; simpa [compensateLoop] using h
  | cons j rest ih =>
    intro steps session h
    simp only [compensateLoop]
    cases hst : steps[j]? with
    | none => exact ih steps session h
    | some st =>
      cases hc : cfg[j]? with
      | none => exact ih steps session h
      | some c =>
        simp only []
        by_cases hcompleted : st.status = StepStatus.completed
        · rw [if_pos hcompleted]
          cases hres : c.compensate order session with
          | ok s2 => exact ih _ s2 (hcomp j c hc session s2 hres h)
          | error e => exact ih steps session h
        · rw [if_neg hcompleted]
          exact ih steps session h

/-- The execution loop preserves session non-negativity whenever every
action of the remaining stages and every compensation of the pipeline do. -/
theorem execLoop_nonneg (cfg : List StepConfig) (order : Order)
    (hcomp : ∀ (j : Nat) (c : StepConfig), cfg[j]? = some c →
      ∀ s s2, c.compensate order s = Except.ok s2 →
        NonNegSession s → NonNegSession s2) :
    ∀ (rest : List StepConfig) (i : Nat) (saga : SagaTransaction) (session : UserSession),
      (∀ c ∈ rest, ∀ s s2, c.action order s = Except.ok s2 →
        NonNegSession s → NonNegSession s2) →
      NonNegSession session →
      NonNegSession (execLoop cfg order rest i saga session).session := by
  intro rest
  induction rest with
  | nil => intro i saga session _ h; simpa [execLoop] using h
  | cons c rest2 ih =>
    intro i saga session hact h
    simp only [execLoop]
    cases hres : c.action order session with
    | ok s2 =>
      exact ih (i + 1) _ s2 (fun c2 hc2 => hact c2 (List.mem_cons_of_mem c hc2))
        (hact c (List.mem_cons_self c rest2) session s2 hres h)
    | error e =>
      simp only [compensate_saga]
      have := compensateLoop_nonneg cfg order hcomp (downFrom i)
        (markFailed saga.steps i e) session h
      simpa [NonNegSession] using this

/-- Every compensation of the concrete pipeline preserves non-negativity,
provided the order passed validation (positive quantity and amount). -/
theorem sagaSteps_comp_nonneg (order : Order) (hq : 0 < order.quantity)
    (ha : 0 < order.amount) :
    ∀ (j : Nat) (c : StepConfig), sagaSteps[j]? = some c →
      ∀ s s2, c.compensate order s = Except.ok s2 →
        NonNegSession s → NonNegSession s2 := by
  intro j c hc s s2 hres hnn
  match j with
  | 0 =>
    obtain rfl : _ = c := by simpa [sagaSteps] using hc
    obtain rfl : s = s2 := by simpa [compensate_validation] using hres
    exact hnn
  | 1 =>
    obtain rfl : _ = c := by simpa [sagaSteps] using hc
    exact release_inventory_nonneg order s s2 hnn (by omega) hres
  | 2 =>
    obtain rfl : _ = c := by simpa [sagaSteps] using hc
    exact refund_payment_nonneg order s s2 hnn (by linarith) hres
  | 3 =>
    obtain rfl : _ = c := by simpa [sagaSteps] using hc
    obtain rfl : s = s2 := by simpa [cancel_shipment] using hres
    exact hnn
  | n + 4 => simp [sagaSteps] at hc

/-- Every action of the concrete pipeline preserves non-negativity. -/
theorem sagaSteps_action_nonneg (order : Order) :
    ∀ c ∈ sagaSteps, ∀ s s2, c.action order s = Except.ok s2 →
      NonNegSession s → NonNegSession s2 := by
  intro c hc s s2 hres hnn
  simp only [sagaSteps, List.mem_cons] at hc
  rcases hc with rfl | rfl | rfl | rfl | hc
  · obtain ⟨rfl, _, _⟩ := validate_order_ok order s s2 hres
    exact hnn
  · exact reserve_inventory_ok_nonneg order s s2 hnn hres
  · exact process_payment_ok_nonneg order s s2 hnn hres
  · obtain rfl := ship_order_ok order s s2 hres
    exact hnn
  · simp at hc

/-- C8: starting from a session whose inventory quantities and user balances
are all non-negative, any saga execution — compensations included — leaves
every inventory quantity and every user balance non-negative. -/
theorem c8_nonnegativity_preserved (saga_id : String) (order : Order)
    (session : UserSession) (h : NonNegSession session) :
    NonNegSession (execute_saga sagaSteps saga_id order session).session := by
  have h0 : NonNegSession (registerSaga saga_id (initialSaga sagaSteps saga_id order)
      session) := by
    simpa [NonNegSession, registerSaga] using h
  have hloop : NonNegSession (execLoop sagaSteps order sagaSteps 0
      (initialSaga sagaSteps saga_id order)
      (registerSaga saga_id (initialSaga sagaSteps saga_id order) session)).session := by
    cases hv : validate_order order (registerSaga saga_id
        (initialSaga sagaSteps saga_id order) session) with
    | ok s1 =>
      obtain ⟨_, hq, ha⟩ := validate_order_ok order _ s1 hv
      exact execLoop_nonneg sagaSteps order (sagaSteps_comp_nonneg order hq ha)
        sagaSteps 0 (initialSaga sagaSteps saga_id order) _
        (sagaSteps_action_nonneg order) h0
    | error e =>
      simp only [sagaSteps, execLoop] at *
      rw [hv]
      simp only [compensate_saga, downFrom, List.range_zero, List.reverse_nil,
        compensateLoop]
      simpa [NonNegSession] using h0
  cases hE : execLoop sagaSteps order sagaSteps 0 (initialSaga sagaSteps saga_id order)
      (registerSaga saga_id (initialSaga sagaSteps saga_id order) session) with
  | mk sg ss fl =>
    rw [hE] at hloop
    simp only [] at hloop
    cases fl with
    | none =>
      simp only [execute_saga, hE]
      simpa [NonNegSession] using hloop
    | some p =>
      obtain ⟨i, tr⟩ := p
      simp only [execute_saga, hE]
      simpa [NonNegSession] using hloop

/-- C10: every normally returned saga has a terminal status — COMPLETED or
FAILED, never PENDING, PROCESSING or COMPENSATING — and the returned
transaction is registered under its id in the session's saga-transactions
map. -/
theorem c10_terminal_status_and_registered (saga_id : String) (order : Order)
    (session : UserSession) :
    ((execute_saga sagaSteps saga_id order session).saga.status = OrderStatus.completed ∨
      (execute_saga sagaSteps saga_id order session).saga.status = OrderStatus.failed) ∧
    (execute_saga sagaSteps saga_id order session).saga.id = saga_id ∧
    lookup saga_id (execute_saga sagaSteps saga_id order session).session.saga_transactions =
      some (execute_saga sagaSteps saga_id order session).saga := by
  obtain ⟨h1, _, _, h4, _, hcases⟩ := execute_saga_spec sagaSteps saga_id order session
  refine ⟨?_, h1, h4⟩
  rcases hcases with ⟨_, hst, _⟩ | ⟨_, hst, _⟩
  · exact Or.inl hst
  · exact Or.inr hst

/-! ### Concrete scenarios (seed-default sessions) -/

/-- The order of the all-success scenario. -/
def orderC6 : Order :=
  { id := "order_1", user_id := "user_1", product_id := "product_1",
    quantity := 2, amount := 50 }

/-- C6: from seed defaults, the order {user_1, product_1, qty 2, amount 50.0}
completes: saga COMPLETED with all four steps COMPLETED, inventory of
product_1 at 98, balance of user_1 at 950.0, order COMPLETED. -/
theorem c6_all_success_totals :
    (execute_saga sagaSteps "saga_1" orderC6 (seedSession "session_1")).saga.status =
      OrderStatus.completed ∧
    stepStatuses (execute_saga sagaSteps "saga_1" orderC6 (seedSession "session_1")).saga =
      [StepStatus.completed, StepStatus.completed, StepStatus.completed,
        StepStatus.completed] ∧
    lookup "product_1"
      (execute_saga sagaSteps "saga_1" orderC6 (seedSession "session_1")).session.inventory_db =
      some 98 ∧
    lookup "user_1"
      (execute_saga sagaSteps "saga_1" orderC6 (seedSession "session_1")).session.user_balances =
      some 950 ∧
    (execute_saga sagaSteps "saga_1" orderC6 (seedSession "session_1")).order.status =
      OrderStatus.completed := by
  have hA : ¬((50 : ℚ) ≤ 0) := by norm_num
  have hB : ¬((1000 : ℚ) < 50) := by norm_num
  simp [execute_saga, execLoop, sagaSteps, validate_order, reserve_inventory,
    process_payment, ship_order, compensate_saga, compensateLoop, downFrom,
    release_inventory, refund_payment, compensate_validation, cancel_shipment,
    setKey, lookup, setStepStatus, markFailed, statusAt, seedSession, orderC6,
    initialSaga, registerSaga, create_default_inventory_db, create_default_user_balances,
    stepStatuses, hA, hB]
  norm_num

/-- The order of the fault-injected compensation scenario. -/
def orderC2 : Order :=
  { id := "order_2", user_id := "user_3", product_id := "product_1",
    quantity := 3, amount := 30 }

/-- C2: from seed defaults, the order {user_3, product_1, qty 3, amount 30.0}
triggers the shipment fault-injection rule: saga FAILED with steps
[COMPENSATED, COMPENSATED, COMPENSATED, FAILED], inventory of product_1
restored to 100, balance of user_3 restored to 200.0, order FAILED. -/
theorem c2_compensation_restores :
    (execute_saga sagaSteps "saga_2" orderC2 (seedSession "session_2")).saga.status =
      OrderStatus.failed ∧
    stepStatuses (execute_saga sagaSteps "saga_2" orderC2 (seedSession "session_2")).saga =
      [StepStatus.compensated, StepStatus.compensated, StepStatus.compensated,
        StepStatus.failed] ∧
    lookup "product_1"
      (execute_saga sagaSteps "saga_2" orderC2 (seedSession "session_2")).session.inventory_db =
      some 100 ∧
    lookup "user_3"
      (execute_saga sagaSteps "saga_2" orderC2 (seedSession "session_2")).session.user_balances =
      some 200 ∧
    (execute_saga sagaSteps "saga_2" orderC2 (seedSession "session_2")).order.status =
      OrderStatus.failed := by
  have hA : ¬((30 : ℚ) ≤ 0) := by norm_num
  have hB : ¬((200 : ℚ) < 30) := by norm_num
  simp [execute_saga, execLoop, sagaSteps, validate_order, reserve_inventory,
    process_payment, ship_order, compensate_saga, compensateLoop, downFrom,
    release_inventory, refund_payment, compensate_validation, cancel_shipment,
    setKey, lookup, setStepStatus, markFailed, statusAt, seedSession, orderC2,
    initialSaga, registerSaga, create_default_inventory_db, create_default_user_balances,
    stepStatuses, List.range_succ, hA, hB]

/-- C7: an order with quantity 0 fails validation at step 0: step 0 is
FAILED, steps 1-3 stay PENDING, no compensation is invoked, and the
session's inventory and balance maps are exactly unchanged. -/
theorem c7_validation_failure_mutates_nothing (saga_id : String) (order : Order)
    (session : UserSession) (h : order.quantity = 0) :
    stepStatuses (execute_saga sagaSteps saga_id order session).saga =
      [StepStatus.failed, StepStatus.pending, StepStatus.pending, StepStatus.pending] ∧
    (execute_saga sagaSteps saga_id order session).compTrace = [] ∧
    (execute_saga sagaSteps saga_id order session).session.inventory_db =
      session.inventory_db ∧
    (execute_saga sagaSteps saga_id order session).session.user_balances =
      session.user_balances := by
  simp [execute_saga, execLoop, sagaSteps, validate_order, h, compensate_saga,
    downFrom, compensateLoop, markFailed, setStepStatus, initialSaga, registerSaga,
    stepStatuses, statusAt]

/-! ### Witnesses -/

/-- A saga as `execute_saga` leaves it when the fourth step fails after the
first three completed. -/
def sagaW1 : SagaTransaction :=
  { id := "saga_w1", order_id := "order_w1",
    steps :=
      [{ name := "validate_order", status := StepStatus.completed },
       { name := "reserve_inventory", status := StepStatus.completed },
       { name := "process_payment", status := StepStatus.completed },
       { name := "ship_order", status := StepStatus.failed,
         error_message := some "Shipping address invalid" }] }

def orderW1 : Order :=
  { id := "order_w1", user_id := "user_3", product_id := "product_1",
    quantity := 3, amount := 30 }

theorem c1_witness :
    3 ≤ sagaW1.steps.length ∧ 3 ≤ sagaSteps.length ∧
    (compensate_saga sagaSteps sagaW1 3 orderW1 (seedSession "sw1")).trace.map Prod.fst =
      (downFrom 3).filter
        (fun i => decide (statusAt sagaW1.steps i = some StepStatus.completed)) :=
  ⟨by simp [sagaW1], by simp [sagaSteps],
   (c1_rollback_lifo_completed_only sagaW1 3 orderW1 (seedSession "sw1")
     (by simp [sagaW1]) (by simp [sagaSteps])).1⟩

def orderW4 : Order :=
  { id := "order_4", user_id := "user_1", product_id := "product_1",
    quantity := 0, amount := 10 }

theorem c4_witness :
    (execute_saga sagaSteps "saga_4" orderW4 (seedSession "s4")).failedIndex = some 0 ∧
    (∀ (j : Nat) (s : SagaStep), 0 < j →
      (execute_saga sagaSteps "saga_4" orderW4 (seedSession "s4")).saga.steps[j]? = some s →
      s.status = StepStatus.pending) := by
  have h : (execute_saga sagaSteps "saga_4" orderW4 (seedSession "s4")).failedIndex =
      some 0 := by
    simp [execute_saga, execLoop, sagaSteps, validate_order, orderW4, compensate_saga,
      downFrom, compensateLoop, markFailed, initialSaga, registerSaga, seedSession]
  exact ⟨h, (c4_no_stage_after_failure "saga_4" orderW4 (seedSession "s4") 0 h).2.1⟩

def sagaW5 : SagaTransaction :=
  { id := "saga_5", order_id := "order_5",
    steps :=
      [{ name := "validate_order", status := StepStatus.completed },
       { name := "reserve_inventory", status := StepStatus.completed },
       { name := "process_payment", status := StepStatus.completed },
       { name := "ship_order", status := StepStatus.failed }] }

def orderW5 : Order :=
  { id := "order_5", user_id := "user_x", product_id := "product_1",
    quantity := 1, amount := 10 }

/-- A session whose balances map is empty: the refund compensation then
raises a KeyError. -/
def sessionW5 : UserSession :=
  { session_id := "s5", created_at := 0, user_balances := [] }

theorem c5_witness :
    3 ≤ sagaW5.steps.length ∧ 3 ≤ sagaSteps.length ∧
    (2, false) ∈ (compensate_saga sagaSteps sagaW5 3 orderW5 sessionW5).trace ∧
    statusAt (compensate_saga sagaSteps sagaW5 3 orderW5 sessionW5).saga.steps 2 =
      some StepStatus.completed := by
  have hmem : (2, false) ∈ (compensate_saga sagaSteps sagaW5 3 orderW5 sessionW5).trace := by
    simp [compensate_saga, compensateLoop, downFrom, sagaW5, sagaSteps, orderW5,
      sessionW5, refund_payment, release_inventory, compensate_validation, lookup,
      setKey, List.range_succ, create_default_inventory_db]
  exact ⟨by simp [sagaW5], by simp [sagaSteps], hmem,
    (c5_compensation_failure_tolerated.1 sagaW5 3 orderW5 sessionW5
      (by simp [sagaW5]) (by simp [sagaSteps]) 2 hmem).2.1⟩

def orderW7 : Order :=
  { id := "order_7", user_id := "user_2", product_id := "product_2",
    quantity := 0, amount := 5 }

theorem c7_witness :
    orderW7.quantity = 0 ∧
    stepStatuses (execute_saga sagaSteps "saga_7" orderW7 (seedSession "s7")).saga =
      [StepStatus.failed, StepStatus.pending, StepStatus.pending, StepStatus.pending] :=
  ⟨rfl, (c7_validation_failure_mutates_nothing "saga_7" orderW7 (seedSession "s7") rfl).1⟩

theorem c8_witness :
    NonNegSession (seedSession "s8") ∧
    NonNegSession (execute_saga sagaSteps "saga_8" orderC6 (seedSession "s8")).session := by
  have h : NonNegSession (seedSession "s8") := by
    constructor <;> intro p hp <;>
      · simp [seedSession, create_default_inventory_db,
          create_default_user_balances] at hp
        rcases hp with rfl | rfl | rfl <;> norm_num
  exact ⟨h, c8_nonnegativity_preserved "saga_8" orderC6 (seedSession "s8") h⟩

/-! ### C9: the session store's expiration behavior on reads -/

def storeW9 : RedisStore :=
  ⟨[("session:abc", (seedSession "abc", 100))]⟩

/-- C9 counterexample: at time 50 with the default timeout 3600,
`get_session` succeeds on the stored record yet leaves its expiry deadline
at 100 — the read does not reset the sliding expiration (100 ≠ 50 + 3600),
contradicting the claim that a successful lookup refreshes the last-access
time. -/
theorem c9_counterexample :
    (get_session {} storeW9 50 "abc").1 = some (seedSession "abc") ∧
    lookup "session:abc" (get_session {} storeW9 50 "abc").2.entries =
      some (seedSession "abc", 100) ∧
    50 + ({} : AsyncSessionManager).session_timeout ≠ 100 := by
  refine ⟨?_, ?_, by norm_num⟩ <;>
    simp [get_session, redis_get, get_session_key, storeW9, lookup]

/-- C9 amended: a lookup leaves the Redis store untouched — the sliding
expiration is reset only by the SETEX performed on create/save, which stores
the session with deadline `now + session_timeout`.  Expiry is therefore
computed from the most recent save, not from the most recent read. -/
theorem c9_get_does_not_refresh :
    (∀ (m : AsyncSessionManager) (store : RedisStore) (now : Nat) (sid : String),
      (get_session m store now sid).2 = store) ∧
    (∀ (m : AsyncSessionManager) (store : RedisStore) (now : Nat) (s : UserSession),
      lookup (get_session_key s.session_id) (save_session m store now s).entries =
        some (s, now + m.session_timeout)) := by
  constructor
  · intro m store now sid
    unfold get_session
    cases redis_get store now (get_session_key sid) <;> rfl
  · intro m store now s
    simp [save_session, redis_setex, lookup_setKey_self]

end SagaDemo
